import Mathlib

/-!
Shallow embedding of `hot_fair_utilities/inference/predict.py`.

File and path names are modelled as lists of characters, and the prediction
directory is modelled as the finite set of file names it contains.  The
collaborators that live outside `src/` (`open_images`, `save_mask`,
`remove_files`, `georeference`) are modelled from the specification, as noted
on their definitions.
-/

abbrev FileName := List Char

/-- `BATCH_SIZE = 8` from `predict.py`. -/
def BATCH_SIZE : Nat := 8

/-- `IMAGE_SIZE = 256` from `predict.py`. -/
def IMAGE_SIZE : Nat := 256

/-- Number of scalar elements in one `IMAGE_SIZE x IMAGE_SIZE x 3` tile. -/
def PIXELS : Nat := IMAGE_SIZE * IMAGE_SIZE * 3

def pngExt : FileName := ['.', 'p', 'n', 'g']

def xmlExt : FileName := ['.', 'x', 'm', 'l']

def tifExt : FileName := ['.', 't', 'i', 'f']

/-- Sidecar extension left by gdal georeferencing (`.aux.xml`). -/
def auxXmlExt : FileName := ['.', 'a', 'u', 'x', '.', 'x', 'm', 'l']

/-- The part of a path after the last slash (`pathlib.Path(p).name`). -/
def basenameOf (p : FileName) : FileName :=
  (p.reverse.takeWhile (fun c => c ≠ '/')).reverse

/-- `pathlib.Path(p).stem` applied to a plain name: the name without its final
extension.  A name with no dot, with only a leading dot, or with only a
trailing dot has no suffix and is its own stem. -/
def stemOf (b : FileName) : FileName :=
  let r := b.reverse
  if r.takeWhile (fun c => c ≠ '.') = [] ∨ (r.dropWhile (fun c => c ≠ '.')).tail = []
  then b
  else ((r.dropWhile (fun c => c ≠ '.')).tail).reverse

/-- Output file written by `process_batch` for the input path `p`:
`f"{prediction_path}/{Path(path).stem}.png"`, recorded relative to the
prediction directory. -/
def maskName (p : FileName) : FileName := stemOf (basenameOf p) ++ pngExt

/-- Whether a file name matches the glob pattern `*{ext}`, that is, ends with
`ext`. -/
def matchesExt (ext n : FileName) : Bool :=
  decide (n.reverse.take ext.length = ext.reverse)

/-- Index of the first maximal entry of the score vector (`np.argmax` over the
trailing class axis picks the first occurrence of the maximum). -/
def argmaxIdx : List ℚ → Nat
  | [] => 0
  | [_] => 0
  | x :: y :: t => if x < (y :: t).foldl max y then argmaxIdx (y :: t) + 1 else 0

/-- One output pixel of `process_batch`: `np.where(preds > 0.5, 1, 0)` applied
to the integer arg-max class index of that pixel. -/
def predPixel (scores : List ℚ) : Nat :=
  if (1 / 2 : ℚ) < (argmaxIdx scores : ℚ) then 1 else 0

/-- Split a flat array into consecutive rows of `k` elements, the row-major
view taken by `images.reshape(-1, IMAGE_SIZE, IMAGE_SIZE, 3)`. -/
def chunkList (k : Nat) (l : List α) : List (List α) :=
  match l with
  | [] => []
  | x :: xs =>
    if _h : k = 0 then []
    else (x :: xs).take k :: chunkList k ((x :: xs).drop k)
termination_by l.length
decreasing_by
  rw [List.length_drop]
  simp only [List.length_cons]
  omega

/-- The raised outcome of the write loop of `process_batch`: for
`idx, path in enumerate(image_batch)` it reads `preds[idx]` (an out-of-range
index raises `IndexError`, modelled as the error result) and saves that mask
to `maskName path`.  The ok result records the (file name, mask) pairs written
by a completed loop; the files a failing loop has durably written before the
exception are modelled by `batchWrites` below. -/
def saveMasks : List FileName → List (List Nat) →
    Except String (List (FileName × List Nat))
  | [], _ => .ok []
  | _ :: _, [] => .error "IndexError"
  | p :: ps, m :: ms => (saveMasks ps ms).map (fun r => (maskName p, m) :: r)

/-- `process_batch(image_batch, model, prediction_path)`.

Modelled from the spec: `open_images` (in `hot_fair_utilities.inference.utils`,
not under `src/`) loads the listed image files into one numeric array; we model
the decoder as a parameter `decode` giving the flat pixel data each file
contributes, and the loaded array is their concatenation.  The model wrapper is
modelled as a per-image function `net` from one flat image to its per-pixel
class-score vectors, since batched `model.predict` returns one score array per
input image of the reshaped batch. -/
def processBatch (decode : FileName → List ℚ) (net : List ℚ → List (List ℚ))
    (batch : List FileName) : Except String (List (FileName × List Nat)) :=
  let flat := (batch.map decode).flatten
  if flat.length % PIXELS = 0 then
    let images := chunkList PIXELS flat
    let preds := images.map (fun img => (net img).map predPixel)
    saveMasks batch preds
  else .error "cannot reshape"

/-- The on-disk effect of `process_batch`: the save loop durably writes the
mask `preds[idx]` to `maskName path` for each index in turn until `preds[idx]`
is out of range, so a batch whose loop raises `IndexError` at index `m` leaves
the masks of its first `m` paths on disk, and a batch whose reshape raises
writes nothing.  `List.zipWith` truncates at the shorter list, exactly like
the `enumerate` loop over `image_batch` indexing into `preds`. -/
def batchWrites (decode : FileName → List ℚ) (net : List ℚ → List (List ℚ))
    (batch : List FileName) : List (FileName × List Nat) :=
  let flat := (batch.map decode).flatten
  if flat.length % PIXELS = 0 then
    let images := chunkList PIXELS flat
    let preds := images.map (fun img => (net img).map predPixel)
    List.zipWith (fun p mk => (maskName p, mk)) batch preds
  else []

/-- `n_batches = math.ceil(len(image_paths) / BATCH_SIZE)`. -/
def nBatches (n : Nat) : Nat := (n + BATCH_SIZE - 1) / BATCH_SIZE

/-- The slicing loop of `predict`:
`image_paths[BATCH_SIZE * i : BATCH_SIZE * (i + 1)]` for
`i in range(n_batches)`. -/
def batchesOf (paths : List α) : List (List α) :=
  (List.range (nBatches paths.length)).map
    (fun i => (paths.drop (BATCH_SIZE * i)).take BATCH_SIZE)

/-- Modelled from the spec: `remove_files(pattern)` (in
`hot_fair_utilities.utils`, not under `src/`) deletes every file matching the
glob pattern `{prediction_path}/*{ext}`; deleting an already absent file is
not an error, so the operation is a total function on the directory state. -/
def removeFiles (ext : FileName) (fs : Finset FileName) : Finset FileName :=
  fs.filter (fun n => matchesExt ext n = false)

/-- Modelled from the spec: `georeference(prediction_path, prediction_path,
is_mask=True)` (in `hot_fair_utilities.georeferencing`, not under `src/`) is a
bulk post-pass over the whole prediction directory that writes one
georeferenced raster per mask `{stem}.png` found there; the `predict`
docstring fixes the georeferenced output format to GeoTIFF, so the raster is
`{stem}.tif`, and gdal leaves an `.aux.xml` sidecar per processed file. -/
def georef (fs : Finset FileName) : Finset FileName :=
  fs ∪ (fs.filter (fun n => matchesExt pngExt n = true)).image
        (fun n => stemOf n ++ tifExt)
     ∪ (fs.filter (fun n => matchesExt pngExt n = true)).image
        (fun n => n ++ auxXmlExt)

/-- The two `remove_files` calls at the end of `predict`: first
`{prediction_path}/*.xml`, then `{prediction_path}/*.png`. -/
def cleanup (fs : Finset FileName) : Finset FileName :=
  removeFiles pngExt (removeFiles xmlExt fs)

/-- File names durably written by the scheduled batch tasks: each submitted
batch leaves the files of `batchWrites` on disk, including the partial prefix
of masks a failing batch wrote before its exception. -/
def writtenFiles (decode : FileName → List ℚ) (net : List ℚ → List (List ℚ))
    (sched : List (List FileName)) : List FileName :=
  (sched.map (fun b => (batchWrites decode net b).map Prod.fst)).flatten

/-- The tail of `predict` from batch execution onwards, on the prediction
directory state `pre`.  `concurrent.futures.wait(futures)` blocks until every
future has completed and returns `(done, not_done)` without re-raising stored
exceptions; `predict` never calls `Future.result()`, and
`ThreadPoolExecutor.shutdown` does not re-raise either, so control always
continues into `georeference` and the two `remove_files` calls and `predict`
returns normally, whatever the batch outcomes.  `sched` lists the submitted
batches in completion order. -/
def predictRun (decode : FileName → List ℚ) (net : List ℚ → List (List ℚ))
    (sched : List (List FileName)) (pre : Finset FileName) :
    Except String (Finset FileName) :=
  .ok (cleanup (georef (pre ∪ (writtenFiles decode net sched).toFinset)))

/-- Modelled from Python `os.makedirs(prediction_path, exist_ok=True)`: the
directory is created if absent, and a pre-existing directory is not an
error. -/
def makedirsExistOk (d : FileName) (dirs : Finset FileName) :
    Except String (Finset FileName) :=
  .ok (insert d dirs)

/-- Contents of the prediction directory right after
`os.makedirs(prediction_path, exist_ok=True)`: a directory that did not exist
is created empty; an existing directory keeps its contents. -/
def dirAfterMakedirs : Option (Finset FileName) → Finset FileName
  | none => ∅
  | some c => c

/-- `predict` from the directory-creation step onwards, starting from the
prediction directory being absent (`none`) or present with the given contents
(`some`). -/
def predictWithDir (decode : FileName → List ℚ) (net : List ℚ → List (List ℚ))
    (sched : List (List FileName)) (preDir : Option (Finset FileName)) :
    Except String (Finset FileName) :=
  predictRun decode net sched (dirAfterMakedirs preDir)

/-- Events of one `predict` run, in program order. -/
inductive Ev where
  | loadModel
  | makeDirs (dir : FileName)
  | globList (dir : FileName)
  | runBatch (batch : List FileName)
  | waitAll
  | georefCall (src : FileName) (dst : FileName)
  | removeCall (pat : FileName)
deriving DecidableEq

def isBatchRun : Ev → Bool
  | .runBatch _ => true
  | _ => false

def isGeorefCall : Ev → Bool
  | .georefCall _ _ => true
  | _ => false

def isRemoveCall : Ev → Bool
  | .removeCall _ => true
  | _ => false

/-- The glob pattern `f"{dir}/*{ext}"`. -/
def globStarDot (ext : FileName) (dir : FileName) : FileName :=
  dir ++ '/' :: '*' :: ext

/-- The event trace of one `predict` run: model load, `os.makedirs`, the input
glob, the submitted batch tasks in their completion order `sched` (any
permutation of the slices `batchesOf inputs`), the blocking
`concurrent.futures.wait`, the single `georeference` call on the whole
prediction directory, and the two `remove_files` calls. -/
def predictTrace (inputPath predPath : FileName) (sched : List (List FileName)) :
    List Ev :=
  [Ev.loadModel, Ev.makeDirs predPath, Ev.globList inputPath]
    ++ sched.map Ev.runBatch
    ++ [Ev.waitAll, Ev.georefCall predPath predPath,
        Ev.removeCall (globStarDot xmlExt predPath),
        Ev.removeCall (globStarDot pngExt predPath)]

/-! ### Helper lemmas about names and extensions -/

theorem matchesExt_append (ext s : FileName) : matchesExt ext (s ++ ext) = true := by
  simp only [matchesExt, decide_eq_true_eq, List.reverse_append]
  exact List.take_left' (by simp)

theorem matchesExt_append_ne (e₁ e₂ s : FileName) (hlen : e₁.length = e₂.length)
    (hne : e₁ ≠ e₂) : matchesExt e₁ (s ++ e₂) = false := by
  simp only [matchesExt, decide_eq_false_iff_not, List.reverse_append]
  rw [List.take_left' (by simp [hlen])]
  intro h
  exact hne (by simpa using congrArg List.reverse h.symm)

theorem stemOf_append_pngExt (s : FileName) (hs : s ≠ []) :
    stemOf (s ++ pngExt) = s := by
  have hrev : s.reverse ≠ [] := by simpa using hs
  simp [stemOf, pngExt, List.reverse_append, List.takeWhile_cons, List.dropWhile_cons, hrev]

/-! ### Helper lemmas about the binarization -/

theorem predPixel_eq_indicator (scores : List ℚ) :
    predPixel scores = if 1 ≤ argmaxIdx scores then 1 else 0 := by
  unfold predPixel
  rcases Nat.eq_zero_or_pos (argmaxIdx scores) with h | h
  · rw [h]
    norm_num
  · have h1 : (1 / 2 : ℚ) < (argmaxIdx scores : ℚ) := by
      have h2 : (1 : ℚ) ≤ (argmaxIdx scores : ℚ) := by exact_mod_cast h
      linarith
    rw [if_pos h1, if_pos (by omega)]

theorem predPixel_zero_or_one (scores : List ℚ) :
    predPixel scores = 0 ∨ predPixel scores = 1 := by
  unfold predPixel
  split
  · right; rfl
  · left; rfl

/-! ### Helper lemmas about the batch processor -/

theorem saveMasks_ok : ∀ (b : List FileName) (preds : List (List Nat)),
    b.length ≤ preds.length →
    saveMasks b preds = .ok (List.zipWith (fun p m => (maskName p, m)) b preds)
  | [], _, _ => by simp [saveMasks]
  | p :: ps, [], h => by simp at h
  | p :: ps, m :: ms, h => by
      rw [saveMasks, saveMasks_ok ps ms (by simpa using h)]
      simp [Except.map]

theorem saveMasks_err : ∀ (b : List FileName) (preds : List (List Nat)),
    preds.length < b.length → saveMasks b preds = .error "IndexError"
  | [], _, h => by simp at h
  | p :: ps, [], _ => by simp [saveMasks]
  | p :: ps, m :: ms, h => by
      rw [saveMasks, saveMasks_err ps ms (by simpa using h)]
      simp [Except.map]

theorem saveMasks_mem : ∀ (b : List FileName) (preds : List (List Nat))
    (out : List (FileName × List Nat)), saveMasks b preds = .ok out →
    ∀ x ∈ out, x.2 ∈ preds
  | [], _, out, h, x, hx => by
      simp only [saveMasks, Except.ok.injEq] at h
      subst h
      simp at hx
  | p :: ps, [], out, h, x, hx => by simp [saveMasks] at h
  | p :: ps, m :: ms, out, h, x, hx => by
      rw [saveMasks] at h
      cases hrec : saveMasks ps ms with
      | error e => rw [hrec] at h; simp [Except.map] at h
      | ok r =>
          rw [hrec] at h
          simp only [Except.map, Except.ok.injEq] at h
          subst h
          rcases List.mem_cons.mp hx with h1 | h1
          · subst h1; simp
          · exact List.mem_cons_of_mem m (saveMasks_mem ps ms r hrec x h1)

theorem chunkList_cons_of_ne (k : Nat) (l : List α) (hl : l ≠ []) (hk : 0 < k) :
    chunkList k l = l.take k :: chunkList k (l.drop k) := by
  obtain ⟨x, xs, rfl⟩ := List.exists_cons_of_ne_nil hl
  rw [chunkList, dif_neg (by omega)]

theorem chunkList_flatten (k : Nat) (hk : 0 < k) :
    ∀ (L : List (List α)), (∀ c ∈ L, c.length = k) → chunkList k L.flatten = L
  | [], _ => by simp [chunkList]
  | c :: L, h => by
      have hc : c.length = k := h c (by simp)
      have hcne : c ≠ [] := by
        intro e
        rw [e] at hc
        simp at hc
        omega
      rw [List.flatten_cons,
        chunkList_cons_of_ne k _ (by simp [hcne]) hk,
        List.take_left' hc, List.drop_left' hc,
        chunkList_flatten k hk L (fun d hd => h d (List.mem_cons_of_mem c hd))]

theorem chunkList_length_mul (k : Nat) (hk : 0 < k) :
    ∀ (m : Nat) (l : List α), l.length = m * k → (chunkList k l).length = m
  | 0, l, h => by
      have : l = [] := List.eq_nil_of_length_eq_zero (by omega)
      subst this
      simp [chunkList]
  | m + 1, l, h => by
      have hpos : 0 < l.length := by
        rw [h, Nat.succ_mul]
        omega
      rw [chunkList_cons_of_ne k l (by intro e; subst e; simp at hpos) hk]
      rw [List.length_cons,
        chunkList_length_mul k hk m (l.drop k)
          (by rw [List.length_drop, h, Nat.succ_mul]; omega)]

theorem PIXELS_pos : 0 < PIXELS := by norm_num [PIXELS, IMAGE_SIZE]

theorem flatten_length_of_decode (decode : FileName → List ℚ) (batch : List FileName)
    (h : ∀ p ∈ batch, (decode p).length = PIXELS) :
    ((batch.map decode).flatten).length = batch.length * PIXELS := by
  rw [List.length_flatten, List.map_map]
  have hconst : batch.map (List.length ∘ decode) = batch.map (fun _ => PIXELS) :=
    List.map_congr_left (fun p hp => h p hp)
  rw [hconst, List.map_const', List.sum_replicate, smul_eq_mul]

theorem zipWith_pair_map (g : FileName → List Nat) : ∀ (b : List FileName),
    List.zipWith (fun p m => (maskName p, m)) b (b.map g) =
      b.map (fun p => (maskName p, g p))
  | [] => rfl
  | p :: ps => by
      simp only [List.map_cons, List.zipWith_cons_cons, zipWith_pair_map g ps]

theorem processBatch_ok (decode : FileName → List ℚ) (net : List ℚ → List (List ℚ))
    (batch : List FileName) (h : ∀ p ∈ batch, (decode p).length = PIXELS) :
    processBatch decode net batch =
      .ok (batch.map (fun p => (maskName p, (net (decode p)).map predPixel))) := by
  have hflat := flatten_length_of_decode decode batch h
  have hchunks : chunkList PIXELS (batch.map decode).flatten = batch.map decode := by
    refine chunkList_flatten PIXELS PIXELS_pos _ (fun c hc => ?_)
    obtain ⟨p, hp, rfl⟩ := List.mem_map.mp hc
    exact h p hp
  unfold processBatch
  rw [if_pos (by rw [hflat]; exact Nat.mul_mod_left _ _)]
  simp only [hchunks, List.map_map]
  rw [saveMasks_ok _ _ (by simp), zipWith_pair_map]
  simp [Function.comp]

theorem processBatch_reshape_err (decode : FileName → List ℚ)
    (net : List ℚ → List (List ℚ)) (batch : List FileName)
    (h : ((batch.map decode).flatten).length % PIXELS ≠ 0) :
    processBatch decode net batch = .error "cannot reshape" := by
  unfold processBatch
  rw [if_neg h]

/-! ### Helper lemmas about batch partitioning -/

theorem batchesOf_ne_nil (xs : List α) (h : xs ≠ []) :
    batchesOf xs = xs.take BATCH_SIZE :: batchesOf (xs.drop BATCH_SIZE) := by
  have hlen : 0 < xs.length := List.length_pos.mpr h
  have hnb : nBatches xs.length = nBatches (xs.drop BATCH_SIZE).length + 1 := by
    simp only [nBatches, BATCH_SIZE, List.length_drop]
    omega
  unfold batchesOf
  rw [hnb, List.range_succ_eq_map, List.map_cons, List.map_map]
  refine congrArg₂ List.cons (by simp) ?_
  refine List.map_congr_left (fun a _ => ?_)
  simp only [Function.comp_apply, List.drop_drop]
  congr 2
  rw [Nat.succ_eq_add_one]
  ring

theorem batchesOf_flatten : ∀ (xs : List α), (batchesOf xs).flatten = xs
  | [] => by simp [batchesOf, nBatches, BATCH_SIZE]
  | x :: t => by
      rw [batchesOf_ne_nil (x :: t) (by simp), List.flatten_cons,
        batchesOf_flatten ((x :: t).drop BATCH_SIZE), List.take_append_drop]
termination_by xs => xs.length
decreasing_by
  rw [List.length_drop]
  simp only [List.length_cons, BATCH_SIZE]
  omega

theorem perm_toFinset {l₁ l₂ : List FileName} (h : l₁.Perm l₂) :
    l₁.toFinset = l₂.toFinset := by
  ext a
  simp [List.mem_toFinset, h.mem_iff]

/-! ### Helper lemmas about the dispatched writes and the final state -/

theorem batchWrites_ok (decode : FileName → List ℚ) (net : List ℚ → List (List ℚ))
    (batch : List FileName) (h : ∀ p ∈ batch, (decode p).length = PIXELS) :
    batchWrites decode net batch =
      batch.map (fun p => (maskName p, (net (decode p)).map predPixel)) := by
  have hflat := flatten_length_of_decode decode batch h
  have hchunks : chunkList PIXELS (batch.map decode).flatten = batch.map decode := by
    refine chunkList_flatten PIXELS PIXELS_pos _ (fun c hc => ?_)
    obtain ⟨p, hp, rfl⟩ := List.mem_map.mp hc
    exact h p hp
  unfold batchWrites
  rw [if_pos (by rw [hflat]; exact Nat.mul_mod_left _ _)]
  simp only [hchunks, List.map_map]
  rw [zipWith_pair_map]
  simp [Function.comp]

theorem map_fst_zipWith : ∀ (l : List FileName) (preds : List (List Nat)),
    (List.zipWith (fun p mk => (maskName p, mk)) l preds).map Prod.fst =
      (l.take preds.length).map maskName
  | [], _ => by simp
  | _ :: _, [] => by simp
  | p :: ps, m :: ms => by
      simp [map_fst_zipWith ps ms]

theorem writtenFiles_eq (decode : FileName → List ℚ) (net : List ℚ → List (List ℚ))
    (sched : List (List FileName))
    (h : ∀ p ∈ sched.flatten, (decode p).length = PIXELS) :
    writtenFiles decode net sched = sched.flatten.map maskName := by
  unfold writtenFiles
  rw [List.map_flatten]
  congr 1
  refine List.map_congr_left (fun b hb => ?_)
  rw [batchWrites_ok decode net b
    (fun p hp => h p (List.mem_flatten.mpr ⟨b, hb, hp⟩))]
  simp [List.map_map, Function.comp]

theorem toFinset_list_map (f : FileName → FileName) (l : List FileName) :
    (l.map f).toFinset = l.toFinset.image f := by
  ext a
  simp

theorem auxXmlExt_decomp : auxXmlExt = ['.', 'a', 'u', 'x'] ++ xmlExt := rfl

theorem matchesExt_xml_auxXml (n : FileName) :
    matchesExt xmlExt (n ++ auxXmlExt) = true := by
  rw [auxXmlExt_decomp, ← List.append_assoc]
  exact matchesExt_append xmlExt _

theorem predict_final_state (decode : FileName → List ℚ)
    (net : List ℚ → List (List ℚ)) (inputs : List FileName)
    (hlen : ∀ p ∈ inputs, (decode p).length = PIXELS)
    (hne : ∀ p ∈ inputs, stemOf (basenameOf p) ≠ []) :
    predictRun decode net (batchesOf inputs) ∅ =
      .ok ((inputs.map (fun p => stemOf (basenameOf p) ++ tifExt)).toFinset) := by
  have hflat : (batchesOf inputs).flatten = inputs := batchesOf_flatten inputs
  have hw : writtenFiles decode net (batchesOf inputs) = inputs.map maskName := by
    rw [writtenFiles_eq decode net _ (by rw [hflat]; exact hlen), hflat]
  unfold predictRun
  rw [hw, Finset.empty_union]
  congr 1
  have hmemM : ∀ n ∈ (inputs.map maskName).toFinset, ∃ p ∈ inputs, n = maskName p := by
    intro n hn
    rw [List.mem_toFinset, List.mem_map] at hn
    obtain ⟨p, hp, rfl⟩ := hn
    exact ⟨p, hp, rfl⟩
  have hfilterM : (inputs.map maskName).toFinset.filter
      (fun n => matchesExt pngExt n = true) = (inputs.map maskName).toFinset := by
    refine Finset.filter_true_of_mem (fun n hn => ?_)
    obtain ⟨p, _, rfl⟩ := hmemM n hn
    exact matchesExt_append pngExt _
  have himage1 : (inputs.map maskName).toFinset.image (fun n => stemOf n ++ tifExt) =
      (inputs.map (fun p => stemOf (basenameOf p) ++ tifExt)).toFinset := by
    rw [toFinset_list_map, Finset.image_image, toFinset_list_map]
    refine Finset.image_congr (fun p hp => ?_)
    have hpmem : p ∈ inputs := List.mem_toFinset.mp (Finset.mem_coe.mp hp)
    show stemOf (maskName p) ++ tifExt = stemOf (basenameOf p) ++ tifExt
    rw [maskName, stemOf_append_pngExt _ (hne p hpmem)]
  have himage2 : (inputs.map maskName).toFinset.image (fun n => n ++ auxXmlExt) =
      (inputs.map (fun p => maskName p ++ auxXmlExt)).toFinset := by
    rw [toFinset_list_map, Finset.image_image, toFinset_list_map]
    rfl
  have hgeo : georef (inputs.map maskName).toFinset =
      (inputs.map maskName).toFinset
        ∪ (inputs.map (fun p => stemOf (basenameOf p) ++ tifExt)).toFinset
        ∪ (inputs.map (fun p => maskName p ++ auxXmlExt)).toFinset := by
    rw [georef, hfilterM, himage1, himage2]
  rw [hgeo, cleanup]
  have hxml : removeFiles xmlExt
      ((inputs.map maskName).toFinset
        ∪ (inputs.map (fun p => stemOf (basenameOf p) ++ tifExt)).toFinset
        ∪ (inputs.map (fun p => maskName p ++ auxXmlExt)).toFinset) =
      (inputs.map maskName).toFinset
        ∪ (inputs.map (fun p => stemOf (basenameOf p) ++ tifExt)).toFinset := by
    rw [removeFiles, Finset.filter_union, Finset.filter_union]
    rw [Finset.filter_true_of_mem (fun n hn => ?keepM),
      Finset.filter_true_of_mem (fun n hn => ?keepT),
      Finset.filter_false_of_mem (fun n hn => ?dropX), Finset.union_empty]
    case keepM =>
      obtain ⟨p, _, rfl⟩ := hmemM n hn
      rw [maskName, matchesExt_append_ne xmlExt pngExt _ (by decide) (by decide)]
    case keepT =>
      rw [List.mem_toFinset, List.mem_map] at hn
      obtain ⟨p, _, rfl⟩ := hn
      rw [matchesExt_append_ne xmlExt tifExt _ (by decide) (by decide)]
    case dropX =>
      rw [List.mem_toFinset, List.mem_map] at hn
      obtain ⟨p, _, rfl⟩ := hn
      rw [matchesExt_xml_auxXml]
      simp
  rw [hxml, removeFiles, Finset.filter_union]
  rw [Finset.filter_false_of_mem (fun n hn => ?dropM),
    Finset.filter_true_of_mem (fun n hn => ?keepT2), Finset.empty_union]
  case dropM =>
    obtain ⟨p, _, rfl⟩ := hmemM n hn
    rw [maskName, matchesExt_append]
    simp
  case keepT2 =>
    rw [List.mem_toFinset, List.mem_map] at hn
    obtain ⟨p, _, rfl⟩ := hn
    rw [matchesExt_append_ne pngExt tifExt _ (by decide) (by decide)]

/-! ### Claim C3 -/

/-- C3: every mask pixel written by `process_batch` is the arg-max class index
put through the fixed threshold `> 0.5`; since the index is an integer this
maps class index `0` to `0` and any index at least `1` to `1`, so every
written mask pixel is exactly `0` or `1`. -/
theorem c3_binarization (scores : List ℚ) (decode : FileName → List ℚ)
    (net : List ℚ → List (List ℚ)) (batch : List FileName)
    (out : List (FileName × List Nat))
    (hout : processBatch decode net batch = .ok out) :
    predPixel scores = (if (1 / 2 : ℚ) < (argmaxIdx scores : ℚ) then 1 else 0) ∧
    (predPixel scores = 1 ↔ 1 ≤ argmaxIdx scores) ∧
    (predPixel scores = 0 ↔ argmaxIdx scores = 0) ∧
    (∀ pr ∈ out, ∀ v ∈ pr.2, v = 0 ∨ v = 1) := by
  refine ⟨rfl, ?_, ?_, ?_⟩
  · rw [predPixel_eq_indicator]
    by_cases h1 : 1 ≤ argmaxIdx scores <;> simp [h1]
  · rw [predPixel_eq_indicator]
    by_cases h1 : 1 ≤ argmaxIdx scores <;> simp [h1] <;> omega
  · intro pr hpr v hv
    simp only [processBatch] at hout
    split at hout
    · have h2 := saveMasks_mem _ _ _ hout pr hpr
      rw [List.mem_map] at h2
      obtain ⟨img, _, himg⟩ := h2
      rw [← himg, List.mem_map] at hv
      obtain ⟨sc, _, rfl⟩ := hv
      exact predPixel_zero_or_one sc
    · exact absurd hout (by simp)

/-- Witness for C3 at concrete inputs. -/
theorem c3_binarization_witness :
    predPixel [(1 : ℚ), 5] = 1 ∧ predPixel [(5 : ℚ), 1] = 0 ∧
    (∀ pr ∈ [((maskName ['a'], [1, 0]) : FileName × List Nat)],
      ∀ v ∈ pr.2, v = 0 ∨ v = 1) := by
  have h := c3_binarization [(1 : ℚ), 5] (fun _ => List.replicate PIXELS 0)
    (fun _ => [[(1 : ℚ), 5], [(5 : ℚ), 1]]) [['a']]
    [(maskName ['a'], [1, 0])]
    (by
      rw [processBatch_ok _ _ _ (by simp)]
      norm_num [predPixel, argmaxIdx])
  have h0 := c3_binarization [(5 : ℚ), 1] (fun _ => List.replicate PIXELS 0)
    (fun _ => [[(1 : ℚ), 5], [(5 : ℚ), 1]]) [['a']]
    [(maskName ['a'], [1, 0])]
    (by
      rw [processBatch_ok _ _ _ (by simp)]
      norm_num [predPixel, argmaxIdx])
  exact ⟨h.2.1.mpr (by decide), h0.2.2.1.mpr (by decide), h.2.2.2⟩

/-! ### Claim C4 -/

/-- C4: batch partitioning is deterministic and order-preserving: the number of
batches is the ceiling of `N / 8` (characterized by the two inequalities), the
i-th batch is exactly the slice of the inputs at indices `[8 i, 8 i + 8)`, and
concatenating the batches in order yields the original list. -/
theorem c4_batching (xs : List FileName) :
    (batchesOf xs).length = nBatches xs.length ∧
    (8 * nBatches xs.length < xs.length + 8 ∧ xs.length ≤ 8 * nBatches xs.length) ∧
    (∀ i, ∀ h : i < (batchesOf xs).length,
      (batchesOf xs).get ⟨i, h⟩ = (xs.drop (8 * i)).take 8) ∧
    (batchesOf xs).flatten = xs := by
  refine ⟨by simp [batchesOf], ?_, ?_, batchesOf_flatten xs⟩
  · simp only [nBatches, BATCH_SIZE]
    omega
  · intro i h
    simp [batchesOf, BATCH_SIZE]

/-- Witness for C4 on a concrete list of nine names. -/
theorem c4_batching_witness :
    (batchesOf [['a'], ['b'], ['c'], ['d'], ['e'], ['f'], ['g'], ['h'], ['i']]).length
        = nBatches 9 ∧
    (batchesOf [['a'], ['b'], ['c'], ['d'], ['e'], ['f'], ['g'], ['h'], ['i']]).get
        ⟨1, by decide⟩ = [['i']] ∧
    (batchesOf [['a'], ['b'], ['c'], ['d'], ['e'], ['f'], ['g'], ['h'], ['i']]).flatten
        = [['a'], ['b'], ['c'], ['d'], ['e'], ['f'], ['g'], ['h'], ['i']] := by
  have h := c4_batching [['a'], ['b'], ['c'], ['d'], ['e'], ['f'], ['g'], ['h'], ['i']]
  refine ⟨h.1, ?_, h.2.2.2⟩
  rw [h.2.2.1 1 (by decide)]
  decide

/-! ### Claim C7 -/

/-- C7: cleanup is idempotent: each `remove_files` call is a pure filter on the
directory state (removing an absent file is not an error and removing from an
empty directory yields an empty directory), and running the cleanup pair twice
leaves exactly the state of running it once. -/
theorem c7_cleanup_idempotent (fs : Finset FileName) (ext : FileName) :
    removeFiles ext (removeFiles ext fs) = removeFiles ext fs ∧
    cleanup (cleanup fs) = cleanup fs ∧
    removeFiles ext (∅ : Finset FileName) = ∅ := by
  refine ⟨?_, ?_, by simp [removeFiles]⟩
  · ext n
    simp [removeFiles, Finset.mem_filter]
  · ext n
    simp only [cleanup, removeFiles, Finset.mem_filter]
    tauto

/-! ### Claim C10 -/

/-- C10: `process_batch` reshapes the loaded array to `(-1, 256, 256, 3)`, so
the one-mask-per-path pairing holds exactly under the precondition that the
array holds `len(image_batch) * 256 * 256 * 3` elements, one tile per path: a
non-multiple element count makes the reshape raise, a multiple that yields
fewer images than paths makes the `preds[idx]` lookup raise `IndexError`, and
in general the idx-th path is paired with the idx-th reshaped row regardless
of which file contributed that data. -/
theorem c10_reshape_precondition (decode : FileName → List ℚ)
    (net : List ℚ → List (List ℚ)) (batch : List FileName) (m : Nat) :
    ((batch.map decode).flatten.length % PIXELS ≠ 0 →
      processBatch decode net batch = .error "cannot reshape") ∧
    ((batch.map decode).flatten.length = m * PIXELS → m < batch.length →
      processBatch decode net batch = .error "IndexError") ∧
    ((batch.map decode).flatten.length = m * PIXELS → batch.length ≤ m →
      processBatch decode net batch = .ok (List.zipWith
        (fun p mk => (maskName p, mk)) batch
        ((chunkList PIXELS ((batch.map decode).flatten)).map
          (fun img => (net img).map predPixel)))) ∧
    ((∀ p ∈ batch, (decode p).length = PIXELS) →
      processBatch decode net batch =
        .ok (batch.map (fun p => (maskName p, (net (decode p)).map predPixel)))) := by
  refine ⟨processBatch_reshape_err decode net batch, ?_, ?_,
    processBatch_ok decode net batch⟩
  · intro hm hlt
    unfold processBatch
    rw [if_pos (by rw [hm]; exact Nat.mul_mod_left _ _)]
    exact saveMasks_err _ _ (by
      rw [List.length_map, chunkList_length_mul PIXELS PIXELS_pos m _ hm]
      exact hlt)
  · intro hm hle
    unfold processBatch
    rw [if_pos (by rw [hm]; exact Nat.mul_mod_left _ _)]
    exact saveMasks_ok _ _ (by
      rw [List.length_map, chunkList_length_mul PIXELS PIXELS_pos m _ hm]
      exact hle)

/-- Witness for C10 at concrete inputs: a one-element decode makes the reshape
fail, an empty decode with one path underfills and raises `IndexError`, and a
full one-tile decode produces exactly the one expected mask. -/
theorem c10_reshape_precondition_witness :
    processBatch (fun _ => [(0 : ℚ)]) (fun _ => []) [['a']] =
      .error "cannot reshape" ∧
    processBatch (fun _ => ([] : List ℚ)) (fun _ => []) [['a']] =
      .error "IndexError" ∧
    processBatch (fun _ => List.replicate PIXELS 0) (fun _ => [])
        [['a', '.', 'p', 'n', 'g']] =
      .ok [(maskName ['a', '.', 'p', 'n', 'g'], [])] := by
  refine ⟨(c10_reshape_precondition _ _ _ 0).1 (by decide),
    (c10_reshape_precondition _ _ _ 0).2.1 (by simp) (by decide), ?_⟩
  have h := (c10_reshape_precondition (fun _ => List.replicate PIXELS 0)
    (fun _ => []) [['a', '.', 'p', 'n', 'g']] 1).2.2.2 (by simp)
  simpa using h

/-! ### Claim C1 -/

/-- C1: for any way of cutting the input list into batches and any completion
order of the workers, the batch processor writes exactly one mask
`{stem}.png` per input path: the written file names are a permutation of
`maskName` over the inputs, their set equals the set of input mask names, and
with nonempty pairwise-distinct stems the correspondence is one-to-one and
stem-preserving. -/
theorem c1_one_mask_per_input (decode : FileName → List ℚ)
    (net : List ℚ → List (List ℚ)) (inputs : List FileName)
    (bs sched : List (List FileName))
    (hlen : ∀ p ∈ inputs, (decode p).length = PIXELS)
    (hcut : bs.flatten = inputs)
    (hsched : sched.Perm bs)
    (hne : ∀ p ∈ inputs, stemOf (basenameOf p) ≠ [])
    (hnd : (inputs.map (fun p => stemOf (basenameOf p))).Nodup) :
    (writtenFiles decode net sched).Perm (inputs.map maskName) ∧
    (writtenFiles decode net sched).toFinset = (inputs.map maskName).toFinset ∧
    (inputs.map maskName).Nodup ∧
    (∀ p ∈ inputs, stemOf (maskName p) = stemOf (basenameOf p)) := by
  have hpermflat : sched.flatten.Perm inputs := by
    rw [← hcut]
    exact hsched.flatten
  have hw : writtenFiles decode net sched = sched.flatten.map maskName :=
    writtenFiles_eq decode net sched
      (fun p hp => hlen p (hpermflat.mem_iff.mp hp))
  have hperm : (writtenFiles decode net sched).Perm (inputs.map maskName) := by
    rw [hw]
    exact hpermflat.map maskName
  have hmasknd : (inputs.map maskName).Nodup := by
    have : inputs.map maskName =
        (inputs.map (fun p => stemOf (basenameOf p))).map (fun s => s ++ pngExt) := by
      rw [List.map_map]
      rfl
    rw [this]
    exact hnd.map (List.append_left_injective pngExt)
  exact ⟨hperm, perm_toFinset hperm, hmasknd,
    fun p hp => by rw [maskName, stemOf_append_pngExt _ (hne p hp)]⟩

/-- Witness for C1: two inputs cut into two singleton batches, run in reversed
order. -/
theorem c1_one_mask_per_input_witness :
    (writtenFiles (fun _ => List.replicate PIXELS 0) (fun _ => [])
        [[['b', '.', 'p', 'n', 'g']], [['a', '.', 'p', 'n', 'g']]]).Perm
      ([['a', '.', 'p', 'n', 'g'], ['b', '.', 'p', 'n', 'g']].map maskName) ∧
    ([['a', '.', 'p', 'n', 'g'], ['b', '.', 'p', 'n', 'g']].map maskName).Nodup ∧
    stemOf (maskName ['a', '.', 'p', 'n', 'g']) =
      stemOf (basenameOf ['a', '.', 'p', 'n', 'g']) := by
  have h := c1_one_mask_per_input (fun _ => List.replicate PIXELS 0) (fun _ => [])
    [['a', '.', 'p', 'n', 'g'], ['b', '.', 'p', 'n', 'g']]
    [[['a', '.', 'p', 'n', 'g']], [['b', '.', 'p', 'n', 'g']]]
    [[['b', '.', 'p', 'n', 'g']], [['a', '.', 'p', 'n', 'g']]]
    (by simp) (by decide) (List.Perm.swap _ _ _) (by decide) (by decide)
  exact ⟨h.1, h.2.2.1, h.2.2.2 _ (by decide)⟩

/-! ### Claim C5 -/

/-- Counterexample to C5 as stated: here the single submitted batch fails with
an unhandled exception, yet `predict` still returns normally, because
`concurrent.futures.wait` never re-raises stored exceptions and `predict`
never calls `Future.result()`. -/
theorem c5_counterexample :
    processBatch (fun _ => [(0 : ℚ)]) (fun _ => []) [['a', '.', 'p', 'n', 'g']] =
      .error "cannot reshape" ∧
    (predictRun (fun _ => [(0 : ℚ)]) (fun _ => [])
        (batchesOf [['a', '.', 'p', 'n', 'g']]) ∅).isOk = true :=
  ⟨by rfl, rfl⟩

/-- C5 amended: the dispatcher blocks until every submitted batch completes,
with no cancellation or timeouts, but a failing batch does not propagate its
exception to the caller: `predict` always continues into georeferencing and
cleanup and returns normally.  Partial results are possible: a batch whose
reshape raises leaves no masks on disk, while a batch whose save loop raises
`IndexError` at index `m` leaves exactly the masks of its first `m` paths on
disk; only when every batch wrote nothing does the run reduce to
georeferencing and cleaning the prior directory state. -/
theorem c5_failures_swallowed (decode : FileName → List ℚ)
    (net : List ℚ → List (List ℚ)) (sched : List (List FileName))
    (pre : Finset FileName) (batch : List FileName) (m : Nat) :
    (predictRun decode net sched pre).isOk = true ∧
    ((batch.map decode).flatten.length % PIXELS ≠ 0 →
      processBatch decode net batch = .error "cannot reshape" ∧
      batchWrites decode net batch = []) ∧
    ((batch.map decode).flatten.length = m * PIXELS → m < batch.length →
      processBatch decode net batch = .error "IndexError" ∧
      (batchWrites decode net batch).length = m ∧
      (batchWrites decode net batch).map Prod.fst = (batch.take m).map maskName) ∧
    ((∀ b ∈ sched, batchWrites decode net b = []) →
      predictRun decode net sched pre = .ok (cleanup (georef pre))) := by
  refine ⟨rfl, ?_, ?_, ?_⟩
  · intro h
    refine ⟨processBatch_reshape_err decode net batch h, ?_⟩
    unfold batchWrites
    rw [if_neg h]
  · intro hm hlt
    have hplen : ((chunkList PIXELS ((batch.map decode).flatten)).map
        (fun img => (net img).map predPixel)).length = m := by
      rw [List.length_map, chunkList_length_mul PIXELS PIXELS_pos m _ hm]
    refine ⟨?_, ?_, ?_⟩
    · unfold processBatch
      rw [if_pos (by rw [hm]; exact Nat.mul_mod_left _ _)]
      exact saveMasks_err _ _ (by rw [hplen]; exact hlt)
    · unfold batchWrites
      rw [if_pos (by rw [hm]; exact Nat.mul_mod_left _ _)]
      rw [List.length_zipWith, hplen]
      omega
    · unfold batchWrites
      rw [if_pos (by rw [hm]; exact Nat.mul_mod_left _ _)]
      rw [map_fst_zipWith, hplen]
  · intro hzero
    have hw : writtenFiles decode net sched = [] := by
      unfold writtenFiles
      rw [List.flatten_eq_nil_iff]
      intro l hl
      rw [List.mem_map] at hl
      obtain ⟨b, hb, rfl⟩ := hl
      rw [hzero b hb]
      rfl
    unfold predictRun
    rw [hw]
    simp

/-- Witness for the amended C5: a reshape-failing batch writes nothing and the
run still succeeds and still georeferences and cleans the directory, while a
two-path batch whose data holds exactly one tile raises `IndexError` after
durably writing the mask of its first path only. -/
theorem c5_failures_swallowed_witness :
    (predictRun (fun _ => [(1 : ℚ)]) (fun _ => [])
        (batchesOf [['b', '.', 'p', 'n', 'g']]) ∅).isOk = true ∧
    (processBatch (fun _ => [(1 : ℚ)]) (fun _ => []) [['b', '.', 'p', 'n', 'g']] =
        .error "cannot reshape" ∧
      batchWrites (fun _ => [(1 : ℚ)]) (fun _ => []) [['b', '.', 'p', 'n', 'g']] = []) ∧
    (processBatch (fun p => if p = ['a'] then List.replicate PIXELS 0 else [])
        (fun _ => []) [['a'], ['b']] = .error "IndexError" ∧
      (batchWrites (fun p => if p = ['a'] then List.replicate PIXELS 0 else [])
        (fun _ => []) [['a'], ['b']]).map Prod.fst = [maskName ['a']]) ∧
    predictRun (fun _ => [(1 : ℚ)]) (fun _ => [])
        (batchesOf [['b', '.', 'p', 'n', 'g']]) ∅ = .ok (cleanup (georef ∅)) := by
  have h1 := c5_failures_swallowed (fun _ => [(1 : ℚ)]) (fun _ => [])
    (batchesOf [['b', '.', 'p', 'n', 'g']]) ∅ [['b', '.', 'p', 'n', 'g']] 0
  have h2 := c5_failures_swallowed
    (fun p => if p = ['a'] then List.replicate PIXELS 0 else [])
    (fun _ => []) [] ∅ [['a'], ['b']] 1
  have h3 := h2.2.2.1 (by simp) (by decide)
  refine ⟨h1.1, h1.2.1 (by decide), ⟨h3.1, ?_⟩, h1.2.2.2 (by decide)⟩
  rw [h3.2.2]
  rfl

/-! ### Claim C6 -/

/-- C6: in every run, whatever the completion order of the submitted batches,
the georeferencer is called exactly once, on the whole prediction directory,
strictly after every batch task and strictly before the two cleanup
removals. -/
theorem c6_georef_once_between (ip pp : FileName) (inputs : List FileName)
    (sched : List (List FileName)) (_hs : sched.Perm (batchesOf inputs)) :
    ((predictTrace ip pp sched).countP isGeorefCall = 1) ∧
    (∀ e ∈ predictTrace ip pp sched, isGeorefCall e = true → e = Ev.georefCall pp pp) ∧
    ∃ pre post,
      predictTrace ip pp sched = pre ++ Ev.georefCall pp pp :: post ∧
      (∀ e ∈ pre, isGeorefCall e = false) ∧
      (∀ e ∈ post, isGeorefCall e = false) ∧
      (∀ e ∈ predictTrace ip pp sched, isBatchRun e = true → e ∈ pre) ∧
      (∀ e ∈ post, isRemoveCall e = true) ∧
      (∀ e ∈ predictTrace ip pp sched, isRemoveCall e = true → e ∈ post) := by
  have heq : predictTrace ip pp sched =
      ([Ev.loadModel, Ev.makeDirs pp, Ev.globList ip]
          ++ sched.map Ev.runBatch ++ [Ev.waitAll])
        ++ Ev.georefCall pp pp ::
          [Ev.removeCall (globStarDot xmlExt pp),
           Ev.removeCall (globStarDot pngExt pp)] := by
    simp [predictTrace]
  have hpre : ∀ e ∈ [Ev.loadModel, Ev.makeDirs pp, Ev.globList ip]
      ++ sched.map Ev.runBatch ++ [Ev.waitAll], isGeorefCall e = false := by
    intro e he
    simp only [List.mem_append, List.mem_cons, List.mem_map,
      List.not_mem_nil, or_false] at he
    rcases he with ((rfl | rfl | rfl) | ⟨b, _, rfl⟩) | rfl <;> rfl
  have hpreB : ∀ e ∈ [Ev.loadModel, Ev.makeDirs pp, Ev.globList ip]
      ++ sched.map Ev.runBatch ++ [Ev.waitAll], isRemoveCall e = false := by
    intro e he
    simp only [List.mem_append, List.mem_cons, List.mem_map,
      List.not_mem_nil, or_false] at he
    rcases he with ((rfl | rfl | rfl) | ⟨b, _, rfl⟩) | rfl <;> rfl
  have hpost : ∀ e ∈ [Ev.removeCall (globStarDot xmlExt pp),
      Ev.removeCall (globStarDot pngExt pp)], isGeorefCall e = false := by
    intro e he
    simp only [List.mem_cons, List.not_mem_nil, or_false] at he
    rcases he with rfl | rfl <;> rfl
  refine ⟨?_, ?_, _, _, heq, hpre, hpost, ?_, ?_, ?_⟩
  · rw [heq, List.countP_append, List.countP_cons]
    rw [List.countP_eq_zero.mpr (fun a ha => by rw [hpre a ha]; exact Bool.false_ne_true)]
    rw [List.countP_eq_zero.mpr (fun a ha => by rw [hpost a ha]; exact Bool.false_ne_true)]
    rfl
  · intro e he hg
    rw [heq] at he
    rcases List.mem_append.mp he with h1 | h2
    · rw [hpre e h1] at hg
      exact absurd hg (by simp)
    · rcases List.mem_cons.mp h2 with rfl | h3
      · rfl
      · rw [hpost e h3] at hg
        exact absurd hg (by simp)
  · intro e he hb
    rw [heq] at he
    rcases List.mem_append.mp he with h1 | h2
    · exact h1
    · rcases List.mem_cons.mp h2 with rfl | h3
      · exact absurd hb (by simp [isBatchRun])
      · simp only [List.mem_cons, List.not_mem_nil, or_false] at h3
        rcases h3 with rfl | rfl <;> exact absurd hb (by simp [isBatchRun])
  · intro e he
    simp only [List.mem_cons, List.not_mem_nil, or_false] at he
    rcases he with rfl | rfl <;> rfl
  · intro e he hr
    rw [heq] at he
    rcases List.mem_append.mp he with h1 | h2
    · rw [hpreB e h1] at hr
      exact absurd hr (by simp)
    · rcases List.mem_cons.mp h2 with rfl | h3
      · exact absurd hr (by simp [isRemoveCall])
      · exact h3

/-- Witness for C6 on a concrete one-tile run with the code batching. -/
theorem c6_georef_once_between_witness :
    (predictTrace ['i'] ['o']
        (batchesOf [['a', '.', 'p', 'n', 'g']])).countP isGeorefCall = 1 :=
  (c6_georef_once_between ['i'] ['o'] [['a', '.', 'p', 'n', 'g']] _
    (List.Perm.refl _)).1

/-! ### Claim C8 -/

/-- C8: `os.makedirs(prediction_path, exist_ok=True)` creates the output
directory when absent and is not an error when it already exists, and from an
equal post-creation directory state `predict` proceeds identically whether or
not the directory pre-existed. -/
theorem c8_makedirs (d : FileName) (dirs : Finset FileName)
    (decode : FileName → List ℚ) (net : List ℚ → List (List ℚ))
    (sched : List (List FileName)) (hmem : d ∈ dirs) :
    (makedirsExistOk d dirs).isOk = true ∧
    makedirsExistOk d dirs = .ok dirs ∧
    (∀ dirs2 : Finset FileName,
      makedirsExistOk d dirs2 = .ok (insert d dirs2) ∧ d ∈ insert d dirs2) ∧
    predictWithDir decode net sched none = predictWithDir decode net sched (some ∅) := by
  refine ⟨rfl, ?_, fun dirs2 => ⟨rfl, Finset.mem_insert_self d dirs2⟩, rfl⟩
  rw [makedirsExistOk, Finset.insert_eq_self.mpr hmem]

/-- Witness for C8 with an already existing output directory. -/
theorem c8_makedirs_witness :
    makedirsExistOk ['o'] {['o']} = .ok {['o']} ∧
    predictWithDir (fun _ => []) (fun _ => []) [] none =
      predictWithDir (fun _ => []) (fun _ => []) [] (some ∅) := by
  have h := c8_makedirs ['o'] {['o']} (fun _ => []) (fun _ => []) []
    (Finset.mem_singleton_self ['o'])
  exact ⟨h.2.1, h.2.2.2⟩

/-! ### Claim C9 -/

/-- C9: with zero discovered `.png` inputs there are zero batches, no batch
task is submitted and no model inference runs, yet the trace still contains
the single georeferencing call and both removals, and the run returns without
error, applying georeferencing and cleanup to the prediction directory. -/
theorem c9_empty_input (ip pp : FileName) (decode : FileName → List ℚ)
    (net : List ℚ → List (List ℚ)) (sched : List (List FileName))
    (pre : Finset FileName)
    (hs : sched.Perm (batchesOf ([] : List FileName))) :
    nBatches 0 = 0 ∧
    batchesOf ([] : List FileName) = [] ∧
    sched = [] ∧
    predictTrace ip pp sched =
      [Ev.loadModel, Ev.makeDirs pp, Ev.globList ip, Ev.waitAll,
        Ev.georefCall pp pp, Ev.removeCall (globStarDot xmlExt pp),
        Ev.removeCall (globStarDot pngExt pp)] ∧
    ((predictTrace ip pp sched).countP isBatchRun = 0) ∧
    ((predictTrace ip pp sched).countP isGeorefCall = 1) ∧
    ((predictTrace ip pp sched).countP isRemoveCall = 2) ∧
    predictRun decode net sched pre = .ok (cleanup (georef pre)) := by
  have hb : batchesOf ([] : List FileName) = [] := by
    simp [batchesOf, nBatches, BATCH_SIZE]
  have hsched : sched = [] := by
    rw [hb] at hs
    exact hs.eq_nil
  subst hsched
  refine ⟨rfl, hb, rfl, by simp [predictTrace], ?_, ?_, ?_, ?_⟩
  · simp [predictTrace, List.countP_cons, isBatchRun]
  · simp [predictTrace, List.countP_cons, isGeorefCall]
  · simp [predictTrace, List.countP_cons, isRemoveCall]
  · unfold predictRun writtenFiles
    simp

/-- Witness for C9 with an empty schedule and an empty prediction directory. -/
theorem c9_empty_input_witness :
    predictTrace ['i'] ['o'] [] =
      [Ev.loadModel, Ev.makeDirs ['o'], Ev.globList ['i'], Ev.waitAll,
        Ev.georefCall ['o'] ['o'], Ev.removeCall (globStarDot xmlExt ['o']),
        Ev.removeCall (globStarDot pngExt ['o'])] ∧
    predictRun (fun _ => []) (fun _ => []) [] ∅ = .ok (cleanup (georef ∅)) := by
  have h := c9_empty_input ['i'] ['o'] (fun _ => []) (fun _ => []) [] ∅
    (by rw [show batchesOf ([] : List FileName) = [] from by
      simp [batchesOf, nBatches, BATCH_SIZE]])
  exact ⟨h.2.2.2.1, h.2.2.2.2.2.2.2⟩

/-! ### Claim C2 -/

/-- Counterexample to C2 as stated: for one valid input tile `in/a.png` and an
initially empty prediction directory, the final `remove_files` pass on
`{prediction_path}/*.png` has deleted every `.png` file, so the directory
holds the georeferenced raster `a.tif` and zero files named `{stem}.png`,
not one file named `a.png`. -/
theorem c2_counterexample :
    predictRun (fun _ => List.replicate PIXELS 0) (fun _ => [])
        (batchesOf [['i', 'n', '/', 'a', '.', 'p', 'n', 'g']]) ∅ =
      .ok {['a', '.', 't', 'i', 'f']} ∧
    maskName ['i', 'n', '/', 'a', '.', 'p', 'n', 'g'] = ['a', '.', 'p', 'n', 'g'] ∧
    ['a', '.', 'p', 'n', 'g'] ∉ ({['a', '.', 't', 'i', 'f']} : Finset FileName) ∧
    (({['a', '.', 't', 'i', 'f']} : Finset FileName).filter
        (fun n => matchesExt pngExt n = true)).card = 0 := by
  refine ⟨?_, by decide, by decide, by decide⟩
  have h := predict_final_state (fun _ => List.replicate PIXELS 0) (fun _ => [])
    [['i', 'n', '/', 'a', '.', 'p', 'n', 'g']] (by simp) (by decide)
  rw [h]
  exact congrArg Except.ok (by decide)

/-- C2 amended: after `predict` returns on N valid tiles with distinct
nonempty stems and an initially empty prediction directory, the directory
holds exactly one georeferenced raster per input tile named `{stem}.tif`
(GeoTIFF, as fixed by the `predict` docstring), and zero `.xml` and zero
`.png` files, every intermediate mask and sidecar having been deleted. -/
theorem c2_outputs_are_tifs (decode : FileName → List ℚ)
    (net : List ℚ → List (List ℚ)) (inputs : List FileName)
    (hlen : ∀ p ∈ inputs, (decode p).length = PIXELS)
    (hne : ∀ p ∈ inputs, stemOf (basenameOf p) ≠ [])
    (hnd : (inputs.map (fun p => stemOf (basenameOf p))).Nodup) :
    predictRun decode net (batchesOf inputs) ∅ =
      .ok ((inputs.map (fun p => stemOf (basenameOf p) ++ tifExt)).toFinset) ∧
    ((inputs.map (fun p => stemOf (basenameOf p) ++ tifExt)).toFinset).card
      = inputs.length ∧
    (∀ n ∈ (inputs.map (fun p => stemOf (basenameOf p) ++ tifExt)).toFinset,
      matchesExt pngExt n = false ∧ matchesExt xmlExt n = false) := by
  refine ⟨predict_final_state decode net inputs hlen hne, ?_, ?_⟩
  · have hnd2 : (inputs.map (fun p => stemOf (basenameOf p) ++ tifExt)).Nodup := by
      have hsplit : inputs.map (fun p => stemOf (basenameOf p) ++ tifExt) =
          (inputs.map (fun p => stemOf (basenameOf p))).map (fun s => s ++ tifExt) := by
        rw [List.map_map]
        rfl
      rw [hsplit]
      exact hnd.map (List.append_left_injective tifExt)
    rw [List.toFinset_card_of_nodup hnd2, List.length_map]
  · intro n hn
    rw [List.mem_toFinset, List.mem_map] at hn
    obtain ⟨p, _, rfl⟩ := hn
    exact ⟨matchesExt_append_ne pngExt tifExt _ (by decide) (by decide),
      matchesExt_append_ne xmlExt tifExt _ (by decide) (by decide)⟩

/-- Witness for the amended C2 on one valid concrete tile. -/
theorem c2_outputs_are_tifs_witness :
    predictRun (fun _ => List.replicate PIXELS 0) (fun _ => [])
        (batchesOf [['i', 'n', '/', 'a', '.', 'p', 'n', 'g']]) ∅ =
      .ok (([['i', 'n', '/', 'a', '.', 'p', 'n', 'g']].map
        (fun p => stemOf (basenameOf p) ++ tifExt)).toFinset) ∧
    (([['i', 'n', '/', 'a', '.', 'p', 'n', 'g']].map
        (fun p => stemOf (basenameOf p) ++ tifExt)).toFinset).card = 1 := by
  have h := c2_outputs_are_tifs (fun _ => List.replicate PIXELS 0) (fun _ => [])
    [['i', 'n', '/', 'a', '.', 'p', 'n', 'g']] (by simp) (by decide) (by decide)
  exact ⟨h.1, h.2.1⟩
